import Mathlib

/-!
Shallow embedding of the adaptive learning scheduler of `src/src/pages/LearnMode.tsx`
(a React flashcard study application).  Pure fragments of the component become Lean
functions; the component's mutable state becomes explicit state passing.  JavaScript
numbers holding card confidences are embedded as `Int` (all operations involved are
integer-valued:  `+ 20`, `- 25`, `Math.min`, `Math.max`); timestamps as `Int`;
`Math.round` over the aggregate mean is embedded via exact rational arithmetic, which
agrees with the double-precision computation for every reachable deck size (sums are
small integers, and the quotient is never within double rounding error of a half-integer
boundary other than when it is exactly one).
-/

/-- The `Flashcard` interface of LearnMode.tsx: `id`, `term`, `definition`,
optional `image_url`, and the session-scoped optional fields `confidence` (0-100)
and `lastSeen` (timestamp), both absent until the session initializer attaches them. -/
structure Flashcard where
  id : String
  term : String
  defn : String
  image_url : Option String := none
  confidence : Option Int := none
  lastSeen : Option Int := none
deriving DecidableEq, Repr

/-- The JavaScript read `card.confidence || 50`:  `||` substitutes the default 50
both when `confidence` is `undefined` and when it is the falsy number `0`.
Every scheduler read of a confidence goes through this expression in the source
(lines 103, 106, 121, 160, 227 of LearnMode.tsx). -/
def effConf (c : Flashcard) : Int :=
  match c.confidence with
  | none => 50
  | some v => if v = 0 then 50 else v

/-- The new confidence value written by `updateConfidence` (LearnMode.tsx lines
102-108): `Math.min(100, (confidence || 50) + 20)` on a correct answer,
`Math.max(0, (confidence || 50) - 25)` on an incorrect one. -/
def newConfidence (correct : Bool) (c : Flashcard) : Int :=
  if correct then min 100 (effConf c + 20) else max 0 (effConf c - 25)

/-- Replace the element at index `i` by `f` of it (models the in-place mutation
`updated[currentIndex].confidence = ...` after the shallow copy `[...flashcards]`). -/
def updateAt (i : Nat) (f : α → α) : List α → List α
  | [] => []
  | x :: xs =>
    match i with
    | 0 => f x :: xs
    | i + 1 => x :: updateAt i f xs

/-- The function `updateConfidence` (LearnMode.tsx lines 97-112): rewrites the current card's
`confidence` per `newConfidence` and its `lastSeen` to now, and returns the new
streak counter (`streak + 1` on correct, `0` on incorrect). -/
def updateConfidence (correct : Bool) (now : Int) (fl : List Flashcard)
    (currentIndex : Nat) (streak : Nat) : List Flashcard × Nat :=
  (updateAt currentIndex
    (fun c => { c with confidence := some (newConfidence correct c), lastSeen := some now }) fl,
   if correct then streak + 1 else 0)

/-- The clamped increase of the spec's testable property: `min(100, c + 20)`. -/
def clampedIncrease (c : Int) : Int := min 100 (c + 20)

/-- The clamped decrease of the spec's testable property: `max(0, c - 25)`. -/
def clampedDecrease (c : Int) : Int := max 0 (c - 25)

/-- The mapped entries of `getNextCard` (LearnMode.tsx lines 120-121):
`flashcards.map((card, idx) => ({card, idx, confidence: card.confidence || 50}))`.
Only the index and the effective confidence of each entry are consumed afterwards,
so an entry is embedded as the pair (index, effective confidence). -/
def confEntries (fl : List Flashcard) : List (Nat × Int) :=
  fl.enum.map (fun p => (p.1, effConf p.2))

/-- Stable insertion into an ascending-by-confidence list: an inserted element goes
after the existing elements of equal key, matching the stable `Array.prototype.sort`
with comparator `(a, b) => a.confidence - b.confidence`. -/
def insertAsc (x : Nat × Int) : List (Nat × Int) → List (Nat × Int)
  | [] => [x]
  | y :: ys => if x.2 < y.2 then x :: y :: ys else y :: insertAsc x ys

/-- Stable sort by ascending confidence, the embedding of
`.sort((a, b) => a.confidence - b.confidence)` (LearnMode.tsx line 122). -/
def sortEntries : List (Nat × Int) → List (Nat × Int)
  | [] => []
  | x :: xs => insertAsc x (sortEntries xs)

/-- The pool bound `Math.max(1, Math.floor(flashcards.length * 0.4))` (LearnMode.tsx line 125).
For every length `n` a JavaScript array can have (`n < 2^32`), the double-precision
product `n * 0.4` floors to the exact `(2 * n) / 5`, so the floor is embedded as
natural division. -/
def poolSize (n : Nat) : Nat := max 1 (2 * n / 5)

/-- The bottom-confidence pool `sortedByConfidence.slice(0, Math.max(1, Math.floor(length * 0.4)))`
(LearnMode.tsx line 125). -/
def lowConfidencePool (fl : List Flashcard) : List (Nat × Int) :=
  (sortEntries (confEntries fl)).take (poolSize fl.length)

/-- The function `getNextCard` (LearnMode.tsx lines 114-129).  With spaced repetition off it
returns `(currentIndex + 1) % flashcards.length`; with it on it draws the entry at
position `pick` of the low-confidence pool, where `pick` stands for the value of
`Math.floor(Math.random() * pool.length)` (always `< pool.length` when the pool is
non-empty).  The JavaScript expression produces no valid index on an empty working
set (`% 0` is `NaN`; an empty pool makes `pool[...]` `undefined`), embedded as `none`. -/
def getNextCard (spacedRepetition : Bool) (fl : List Flashcard)
    (currentIndex : Nat) (pick : Nat) : Option Nat :=
  if spacedRepetition then
    ((lowConfidencePool fl).get? pick).map Prod.fst
  else
    if fl.length = 0 then none else some ((currentIndex + 1) % fl.length)

/-- The session state of the LearnMode component that the scheduler touches:
the working set, the current index, the streak and correct counters, and the
spaced-repetition toggle together with the answer-input fields the advance resets. -/
structure SessionState where
  flashcards : List Flashcard
  currentIndex : Nat
  streak : Nat
  correctCount : Nat
  spacedRepetition : Bool
  showAnswer : Bool
  userAnswer : String
deriving DecidableEq, Repr

/-- The handler `handleAnswer` (LearnMode.tsx lines 131-144) followed by the body of its timeout.
In the source, `updateConfidence` mutates the card objects shared between the old
`flashcards` array and its shallow copy before `setFlashcards`, so the selection run
by the delayed callback reads the just-written confidence values; the embedding makes
this sequencing explicit: the updated list is computed first and `getNextCard` is
applied to it.  `pick` is the random draw consumed by `getNextCard`. -/
def handleAnswer (s : SessionState) (isCorrect : Bool) (now : Int) (pick : Nat) :
    SessionState :=
  let correctCount' := if isCorrect then s.correctCount + 1 else s.correctCount
  let updated := updateConfidence isCorrect now s.flashcards s.currentIndex s.streak
  let nextIdx := (getNextCard s.spacedRepetition updated.1 s.currentIndex pick).getD s.currentIndex
  { s with
    flashcards := updated.1
    streak := updated.2
    correctCount := correctCount'
    currentIndex := nextIdx
    showAnswer := false
    userAnswer := "" }

/-- A card row as returned by the external store for a set, already in stored
position order (the query orders by `position`). -/
structure RawCard where
  id : String
  term : String
  defn : String
  image_url : Option String := none
deriving DecidableEq, Repr

/-- The metadata attachment of `fetchSetAndCards` (LearnMode.tsx lines 74-78):
`{...card, confidence: 50, lastSeen: Date.now()}`. -/
def attachMetrics (now : Int) (rc : RawCard) : Flashcard :=
  { id := rc.id, term := rc.term, defn := rc.defn, image_url := rc.image_url,
    confidence := some 50, lastSeen := some now }

/-- The possible outcomes of session initialization: the three failure exits of
`fetchSetAndCards` (toast + `navigate("/")`) and the success that installs the
working set. -/
inductive FetchOutcome where
  /-- the lookup returned a null `setData`: toast "Set not found", navigate home. -/
  | notFound : FetchOutcome
  /-- a thrown `setError` or `cardsError` reached the catch block: toast
  "Failed to load flashcards", navigate home. -/
  | loadError : FetchOutcome
  /-- the query returned `cardsData.length === 0`: toast "This set has no flashcards", navigate home. -/
  | emptySet : FetchOutcome
  /-- title installed and working set produced. -/
  | success (title : String) (workingSet : List Flashcard) : FetchOutcome
deriving DecidableEq, Repr

/-- The initializer `fetchSetAndCards` (LearnMode.tsx lines 44-87).  The two external reads are
embedded as inputs: `setResult` is the title lookup (`error` for a thrown
`setError`, `ok none` for a null `setData`), `cardsResult` the position-ordered
card query (`error` for a thrown `cardsError`). -/
def fetchSetAndCards (setResult : Except Unit (Option String))
    (cardsResult : Except Unit (List RawCard)) (now : Int) : FetchOutcome :=
  match setResult with
  | .error _ => .loadError
  | .ok none => .notFound
  | .ok (some title) =>
    match cardsResult with
    | .error _ => .loadError
    | .ok cards =>
      if cards.length = 0 then .emptySet
      else .success title (cards.map (attachMetrics now))

/-- Whether an initialization outcome routes the user away (`navigate("/")`):
every path of `fetchSetAndCards` except success does. -/
def routesAway : FetchOutcome → Bool
  | .success _ _ => false
  | _ => true

/-- The handler `handleShuffle` (LearnMode.tsx lines 89-95).  `[...flashcards].sort(() => Math.random() - 0.5)`
applies the engine's sort with an inconsistent random comparator: the outcome is some
implementation-defined reordering of the same card objects, embedded as an explicit
permutation parameter; the handler then resets `currentIndex` to 0. -/
def handleShuffle (fl : List Flashcard) (p : Equiv.Perm (Fin fl.length)) :
    List Flashcard × Nat :=
  (List.ofFn (fun i => fl.get (p i)), 0)

/-- The set of random-source outcomes on which a shuffle driver produces a given
result.  A driver is any function of `k` independent `Math.random()` calls, each
uniform over its `2 ^ m` equally likely double values, into a reordering. -/
def shuffleFiber (fl : List Flashcard) (k m : Nat)
    (driver : (Fin k → Fin (2 ^ m)) → Equiv.Perm (Fin fl.length))
    (out : List Flashcard × Nat) : Finset (Fin k → Fin (2 ^ m)) :=
  Finset.univ.filter (fun w => handleShuffle fl (driver w) = out)

/-- Modelled from the spec: `shuffle()` "reorders Working Set uniformly at random" —
a driver realizes a uniform shuffle of `fl` when every reordering reachable by
a permutation is produced on exactly a `1 / (length fl)!` fraction of the random
outcomes. -/
def IsUniformShuffle (fl : List Flashcard) (k m : Nat)
    (driver : (Fin k → Fin (2 ^ m)) → Equiv.Perm (Fin fl.length)) : Prop :=
  ∀ p : Equiv.Perm (Fin fl.length),
    (shuffleFiber fl k m driver (handleShuffle fl p)).card * (fl.length).factorial
      = (2 ^ m) ^ k

/-- JavaScript whitespace characters relevant to `String.prototype.trim`
(the common ASCII subset: space, tab, line feed, carriage return, vertical tab,
form feed). -/
def jsIsWhitespace (c : Char) : Bool :=
  c = ' ' || c = '\t' || c = '\n' || c = '\r' || c = '\x0b' || c = '\x0c'

/-- JavaScript `String.prototype.toLowerCase` on the ASCII range, character by character. -/
def jsToLower (s : String) : String :=
  String.mk (s.toList.map Char.toLower)

/-- JavaScript `String.prototype.trim`: drop leading and trailing whitespace. -/
def jsTrim (s : String) : String :=
  String.mk (((s.toList.dropWhile jsIsWhitespace).reverse.dropWhile jsIsWhitespace).reverse)

/-- The typing-mode correctness predicate of LearnMode.tsx (lines 307, 312, 320):
`userAnswer.toLowerCase().trim() === currentCard.definition.toLowerCase().trim()`. -/
def typingCorrect (input target : String) : Bool :=
  jsTrim (jsToLower input) == jsTrim (jsToLower target)

/-- Split a character list at every character satisfying `p`, keeping empty segments,
exactly like `String.prototype.split` with a one-character separator. -/
def splitChars (p : Char → Bool) : List Char → List Char → List (List Char)
  | [], acc => [acc.reverse]
  | c :: cs, acc =>
    if p c then acc.reverse :: splitChars p cs [] else splitChars p cs (c :: acc)

/-- JavaScript `Array.prototype.join(sep)` over character-list segments with a
one-character separator. -/
def joinWith (sep : Char) : List (List Char) → List Char
  | [] => []
  | [w] => w
  | w :: ws => w ++ sep :: joinWith sep ws

/-- JavaScript indexing `text[0]` used as a string: the one-character string,
except that on the empty string it is `undefined`, which string concatenation
renders as the text "undefined". -/
def jsCharAt0 (l : List Char) : List Char :=
  match l with
  | [] => "undefined".toList
  | c :: _ => [c]

/-- The helper `getHint` (LearnMode.tsx lines 163-167):
`text.split(' ')`; a single segment yields `text[0] + '...'`, several segments
yield `words.map(w => w[0]).join(' ') + '...'`.  The split is on the space
character only; `w[0]` of an empty segment is `undefined`, which `join` renders
as the empty string. -/
def getHint (text : String) : String :=
  let words := splitChars (fun c => c = ' ') text.toList []
  if words.length = 1 then
    String.mk (jsCharAt0 text.toList ++ "...".toList)
  else
    String.mk (joinWith ' ' (words.map (fun w => w.take 1)) ++ "...".toList)

/-- Modelled from the spec: hint derivation over "whitespace-delimited" words —
the same algorithm as `getHint` but splitting the definition at every whitespace
character rather than only at spaces. -/
def specHint (text : String) : String :=
  let words := splitChars jsIsWhitespace text.toList []
  if words.length = 1 then
    String.mk (jsCharAt0 text.toList ++ "...".toList)
  else
    String.mk (joinWith ' ' (words.map (fun w => w.take 1)) ++ "...".toList)

/-- JavaScript `Math.round` on the (nonnegative) aggregate mean: round half
towards positive infinity. -/
def jsRound (q : ℚ) : Int := ⌊q + 1 / 2⌋

/-- The summed effective confidences
`flashcards.reduce((sum, c) => sum + (c.confidence || 50), 0)` (LearnMode.tsx line 160). -/
def sumConfidence (fl : List Flashcard) : Int :=
  (fl.map effConf).sum

/-- The aggregate indicator `avgConfidence` (LearnMode.tsx line 160):
`Math.round(flashcards.reduce((sum, c) => sum + (c.confidence || 50), 0) / flashcards.length)`. -/
def avgConfidence (fl : List Flashcard) : Int :=
  jsRound ((sumConfidence fl : ℚ) / (fl.length : ℚ))

/-- Modelled from the spec: the claimed aggregate, "the arithmetic mean of all
cards' confidence values (rounded to an integer)" — the stored confidence of each
card enters the mean directly (a card with no stored confidence contributes the
initial 50). -/
def claimSum (fl : List Flashcard) : Int :=
  (fl.map (fun c => c.confidence.getD 50)).sum

/-- Modelled from the spec: rounding of the claimed arithmetic mean. -/
def claimAggregate (fl : List Flashcard) : Int :=
  jsRound ((claimSum fl : ℚ) / (fl.length : ℚ))

/-- Modelled from the spec: the claimed eligible pool — "rank all cards by
ascending confidence; take the lowest-confidence 40% (at least 1 card, rounding
down)", ranking by the stored confidence value itself. -/
def claimPool (fl : List Flashcard) : List Nat :=
  ((sortEntries (fl.enum.map (fun p => (p.1, p.2.confidence.getD 50)))).take
    (poolSize fl.length)).map Prod.fst

/-- A session card with a given identifier and stored confidence, for concrete runs. -/
def mkCard (s : String) (conf : Int) : Flashcard :=
  { id := s, term := s, defn := s, confidence := some conf }

/-- The five-card working set of the spec's confidence-weighted test vector,
with confidences 10, 20, 30, 80, 90 in stored order. -/
def ex5 : List Flashcard :=
  [mkCard "a" 10, mkCard "b" 20, mkCard "c" 30, mkCard "d" 80, mkCard "e" 90]

/-- A two-card working set holding a card whose stored confidence is the falsy 0
next to a card at confidence 40. -/
def exC2 : List Flashcard := [mkCard "z" 0, mkCard "f" 40]

/-- A single-card working set whose card has stored confidence 0. -/
def exC8 : List Flashcard := [mkCard "q" 0]

/-- A three-card working set of distinct cards, for the shuffle distribution
argument. -/
def ex3 : List Flashcard := [mkCard "x" 50, mkCard "y" 50, mkCard "w" 50]

/-- A concrete session: two cards at confidences 30 and 40, spaced repetition on,
the first card showing. -/
def exS : SessionState :=
  { flashcards := [mkCard "g" 30, mkCard "h" 40], currentIndex := 0, streak := 0,
    correctCount := 0, spacedRepetition := true, showAnswer := true, userAnswer := "" }

/-- A one-row card query result. -/
def rc1 : RawCard := { id := "c1", term := "water", defn := "H2O" }

theorem effConf_some (c : Flashcard) (v : Int) (h : c.confidence = some v)
    (hv : v ≠ 0) : effConf c = v := by
  simp [effConf, h, hv]

theorem updateAt_getElem? (f : α → α) (l : List α) (i : Nat) :
    (updateAt i f l)[i]? = l[i]?.map f := by
  induction l generalizing i with
  | nil => simp [updateAt]
  | cons x xs ih =>
    cases i with
    | zero => simp [updateAt]
    | succ n => simpa [updateAt] using ih n

/-- C1 (amended).  For every card with stored confidence c in [1,100], a correct
answer writes min(100, c+20) and increments the streak, an incorrect answer writes
max(0, c-25) and zeroes the streak (a stored confidence of exactly 0 is instead
read back as the default 50, see the counterexample); for every starting
confidence in [0,100] the written value again lies in [0,100]. -/
theorem confidence_update_rule :
    (∀ (c : Flashcard) (v : Int), c.confidence = some v → 1 ≤ v → v ≤ 100 →
      newConfidence true c = clampedIncrease v ∧ newConfidence false c = clampedDecrease v)
    ∧ (∀ (now : Int) (fl : List Flashcard) (i streak : Nat),
      (updateConfidence true now fl i streak).2 = streak + 1
      ∧ (updateConfidence false now fl i streak).2 = 0)
    ∧ (∀ (b : Bool) (now : Int) (fl : List Flashcard) (i streak : Nat) (c : Flashcard),
      fl.get? i = some c →
      (updateConfidence b now fl i streak).1.get? i
        = some { c with confidence := some (newConfidence b c), lastSeen := some now })
    ∧ (∀ (c : Flashcard) (v : Int) (b : Bool), c.confidence = some v → 0 ≤ v → v ≤ 100 →
      0 ≤ newConfidence b c ∧ newConfidence b c ≤ 100) := by
  refine ⟨?_, ?_, ?_, ?_⟩
  · intro c v h h1 h2
    have he : effConf c = v := effConf_some c v h (by omega)
    constructor <;> simp [newConfidence, he, clampedIncrease, clampedDecrease]
  · intro now fl i streak
    constructor <;> simp [updateConfidence]
  · intro b now fl i streak c h
    rw [List.get?_eq_getElem?] at h
    simp [updateConfidence, updateAt_getElem?, h]
  · intro c v b h h0 h100
    have he : 0 ≤ effConf c ∧ effConf c ≤ 100 := by
      simp only [effConf, h]
      split <;> omega
    cases b <;> simp [newConfidence] <;> omega

/-- Closed instance of `confidence_update_rule` at a card of stored confidence 30. -/
theorem confidence_update_rule_witness :
    (mkCard "t" 30).confidence = some 30
    ∧ newConfidence true (mkCard "t" 30) = clampedIncrease 30
    ∧ newConfidence false (mkCard "t" 30) = clampedDecrease 30
    ∧ (0 ≤ newConfidence false (mkCard "t" 30) ∧ newConfidence false (mkCard "t" 30) ≤ 100) :=
  ⟨rfl,
   (confidence_update_rule.1 (mkCard "t" 30) 30 rfl (by decide) (by decide)).1,
   (confidence_update_rule.1 (mkCard "t" 30) 30 rfl (by decide) (by decide)).2,
   confidence_update_rule.2.2.2 (mkCard "t" 30) 30 false rfl (by decide) (by decide)⟩

/-- C1 counterexample: a card whose stored confidence is 0 is answered correctly;
the claim requires min(100, 0+20) = 20, but the code writes 70, because the read
`confidence || 50` treats the falsy 0 as 50. -/
theorem confidence_update_zero_cex :
    newConfidence true (mkCard "z" 0) = 70
    ∧ clampedIncrease 0 = 20
    ∧ newConfidence true (mkCard "z" 0) ≠ clampedIncrease 0 := by
  refine ⟨?_, ?_, ?_⟩ <;> decide

/-- C10.  A stored confidence of exactly 0 is read as the default 50 by every
scheduler read: the confidence update writes min(100, 50+20) = 70 on correct and
max(0, 50-25) = 25 on incorrect, the ranking entry built by `getNextCard` carries
key 50, and the aggregate mean counts the card as 50. -/
theorem zero_confidence_reads_as_fifty :
    ∀ (c : Flashcard), c.confidence = some 0 →
      effConf c = 50
      ∧ newConfidence true c = 70
      ∧ newConfidence false c = 25
      ∧ confEntries [c] = [(0, 50)]
      ∧ avgConfidence [c] = 50 := by
  intro c h
  have he : effConf c = 50 := by simp [effConf, h]
  refine ⟨he, ?_, ?_, ?_, ?_⟩
  · simp [newConfidence, he]
  · simp [newConfidence, he]
  · simp [confEntries, List.enum, List.enumFrom, he]
  · have hs : sumConfidence [c] = 50 := by simp [sumConfidence, he]
    simp only [avgConfidence, hs, List.length_cons, List.length_nil, jsRound]
    norm_num [Int.floor_eq_iff]

/-- Closed instance of `zero_confidence_reads_as_fifty` at a concrete card. -/
theorem zero_confidence_reads_as_fifty_witness :
    effConf (mkCard "z" 0) = 50
    ∧ newConfidence true (mkCard "z" 0) = 70
    ∧ newConfidence false (mkCard "z" 0) = 25
    ∧ confEntries [mkCard "z" 0] = [(0, 50)]
    ∧ avgConfidence [mkCard "z" 0] = 50 :=
  zero_confidence_reads_as_fifty (mkCard "z" 0) rfl

/-- C2 (amended).  With spaced repetition off the next index is
(currentIndex + 1) mod the working-set size; with it on, every returned index
comes from the pool of the max(1, floor(0.4 n)) entries of lowest effective
confidence — where a stored confidence of 0 (or none) is read as 50 — and any
in-range random draw does return such an index.  For the stored confidences
[10, 20, 30, 80, 90] that pool is exactly the first two cards, and the card of
confidence 90 is never returned. -/
theorem next_card_policy :
    (∀ (fl : List Flashcard) (i pick : Nat), fl ≠ [] →
      getNextCard false fl i pick = some ((i + 1) % fl.length))
    ∧ (∀ (fl : List Flashcard) (i pick j : Nat),
      getNextCard true fl i pick = some j → j ∈ (lowConfidencePool fl).map Prod.fst)
    ∧ (∀ (fl : List Flashcard) (i pick : Nat), pick < (lowConfidencePool fl).length →
      ∃ j, getNextCard true fl i pick = some j ∧ j ∈ (lowConfidencePool fl).map Prod.fst)
    ∧ ((lowConfidencePool ex5).map Prod.fst = [0, 1])
    ∧ (∀ (i pick : Nat), getNextCard true ex5 i pick ≠ some 4) := by
  refine ⟨?_, ?_, ?_, by decide, ?_⟩
  · intro fl i pick h
    have hl : fl.length ≠ 0 := by
      simpa using fun hh => h (List.length_eq_zero.mp hh)
    simp [getNextCard, hl]
  · intro fl i pick j h
    simp only [getNextCard, if_pos, Option.map_eq_some'] at h
    obtain ⟨e, he, rfl⟩ := h
    exact List.mem_map_of_mem Prod.fst (List.get?_mem he)
  · intro fl i pick h
    have hg : (lowConfidencePool fl).get? pick
        = some ((lowConfidencePool fl).get ⟨pick, h⟩) := List.get?_eq_get h
    refine ⟨((lowConfidencePool fl).get ⟨pick, h⟩).1, ?_, ?_⟩
    · show ((lowConfidencePool fl).get? pick).map Prod.fst = _
      rw [hg, Option.map_some']
    · exact List.mem_map_of_mem Prod.fst (List.get_mem _ _ _)
  · intro i pick
    have hp : lowConfidencePool ex5 = [(0, 10), (1, 20)] := by decide
    simp only [getNextCard, if_pos, hp]
    match pick with
    | 0 => decide
    | 1 => decide
    | n + 2 => simp [List.get?]

/-- Closed instance of `next_card_policy`: the sequential wrap-around 4 to 0 on
the five-card set, and an in-range spaced draw landing in the pool. -/
theorem next_card_policy_witness :
    ex5 ≠ []
    ∧ getNextCard false ex5 4 0 = some ((4 + 1) % ex5.length)
    ∧ 0 < (lowConfidencePool ex5).length
    ∧ ∃ j, getNextCard true ex5 0 0 = some j
        ∧ j ∈ (lowConfidencePool ex5).map Prod.fst :=
  ⟨by decide, next_card_policy.1 ex5 4 0 (by decide), by decide,
   next_card_policy.2.2.1 ex5 0 0 (by decide)⟩

/-- C2 counterexample: in the two-card set with stored confidences [0, 40] the
pool has size max(1, floor(0.8)) = 1, so the claim makes the single lowest-stored-
confidence card (index 0, confidence 0) the only eligible card; the code instead
ranks the 0-confidence card as 50 and returns index 1 (confidence 40), an index
outside the claimed pool. -/
theorem next_card_zero_confidence_cex :
    getNextCard true exC2 0 0 = some 1
    ∧ claimPool exC2 = [0]
    ∧ ¬ (1 ∈ claimPool exC2) := by
  refine ⟨?_, ?_, ?_⟩ <;> decide

/-- C3.  Within one answer step, the working set that the next-card selection
ranks is exactly the output of the confidence update for the answered card, so
the selection sees the post-update confidence; concretely, answering the
30-confidence card of `exS` correctly (update to min(100, 30+20) = 50) makes the
selection return index 1, while ranking the stale pre-answer list would have
returned index 0. -/
theorem update_before_select :
    (∀ (s : SessionState) (b : Bool) (now : Int) (pick : Nat),
      (handleAnswer s b now pick).flashcards
        = (updateConfidence b now s.flashcards s.currentIndex s.streak).1
      ∧ (handleAnswer s b now pick).currentIndex
        = (getNextCard s.spacedRepetition
            (updateConfidence b now s.flashcards s.currentIndex s.streak).1
            s.currentIndex pick).getD s.currentIndex)
    ∧ ((handleAnswer exS true 7 0).currentIndex = 1
      ∧ getNextCard true exS.flashcards 0 0 = some 0) :=
  ⟨fun _ _ _ _ => ⟨rfl, rfl⟩, by decide, by decide⟩

/-- C4.  Loading an existing, non-empty set succeeds and produces the working
set as the stored cards in their stored order (ids, terms and definitions are
kept positionally), every card receiving confidence 50 and lastSeen now. -/
theorem session_init_success :
    ∀ (title : String) (cards : List RawCard) (now : Int), cards ≠ [] →
      fetchSetAndCards (.ok (some title)) (.ok cards) now
          = .success title (cards.map (attachMetrics now))
      ∧ (cards.map (attachMetrics now)).map Flashcard.id = cards.map RawCard.id
      ∧ (cards.map (attachMetrics now)).map Flashcard.term = cards.map RawCard.term
      ∧ (cards.map (attachMetrics now)).map Flashcard.defn = cards.map RawCard.defn
      ∧ ∀ c ∈ cards.map (attachMetrics now),
          c.confidence = some 50 ∧ c.lastSeen = some now := by
  intro title cards now h
  have hl : cards.length ≠ 0 := by
    simpa using fun hh => h (List.length_eq_zero.mp hh)
  refine ⟨by simp [fetchSetAndCards, hl], ?_, ?_, ?_, ?_⟩
  · simp [List.map_map]
    exact fun a _ => rfl
  · simp [List.map_map]
    exact fun a _ => rfl
  · simp [List.map_map]
    exact fun a _ => rfl
  · intro c hc
    obtain ⟨rc, _, rfl⟩ := List.mem_map.mp hc
    exact ⟨rfl, rfl⟩

/-- Closed instance of `session_init_success` on a one-card set. -/
theorem session_init_success_witness :
    [rc1] ≠ []
    ∧ fetchSetAndCards (.ok (some "Chem")) (.ok [rc1]) 5
        = .success "Chem" ([rc1].map (attachMetrics 5)) :=
  ⟨by decide, (session_init_success "Chem" [rc1] 5 (by decide)).1⟩

/-- C5.  Session initialization fails exactly when the title lookup errors or
returns nothing, the card query errors, or the card list is empty; the three
failure outcomes (not found, load error, empty set) cover precisely those
conditions, produce no working set, and each routes the user away, while a
success never does. -/
theorem session_init_failure_cases :
    ∀ (sr : Except Unit (Option String)) (cr : Except Unit (List RawCard)) (now : Int),
      (fetchSetAndCards sr cr now = .notFound ↔ sr = .ok none)
      ∧ (fetchSetAndCards sr cr now = .loadError
          ↔ (sr = .error () ∨ ∃ t, sr = .ok (some t) ∧ cr = .error ()))
      ∧ (fetchSetAndCards sr cr now = .emptySet
          ↔ ∃ t, sr = .ok (some t) ∧ cr = .ok [])
      ∧ ((∃ t ws, fetchSetAndCards sr cr now = .success t ws)
          ↔ ∃ t cards, sr = .ok (some t) ∧ cr = .ok cards ∧ cards ≠ [])
      ∧ (routesAway (fetchSetAndCards sr cr now) = true
          ↔ ∀ t ws, fetchSetAndCards sr cr now ≠ .success t ws) := by
  intro sr cr now
  rcases sr with ⟨⟩ | o
  · simp [fetchSetAndCards, routesAway]
  · rcases o with _ | t
    · simp [fetchSetAndCards, routesAway]
    · rcases cr with ⟨⟩ | cards
      · simp [fetchSetAndCards, routesAway]
      · rcases cards with _ | ⟨c, cs⟩
        · simp [fetchSetAndCards, routesAway]
        · simp [fetchSetAndCards, routesAway]

/-- C6.  In typing mode an answer is judged correct exactly when the input and
the definition coincide after lowercasing and trimming surrounding whitespace;
" Paris " matches "Paris", while "paris," does not. -/
theorem typing_mode_correctness :
    (∀ (input target : String),
      typingCorrect input target = true
        ↔ jsTrim (jsToLower input) = jsTrim (jsToLower target))
    ∧ typingCorrect " Paris " "Paris" = true
    ∧ typingCorrect "paris," "Paris" = false := by
  refine ⟨?_, by decide, by decide⟩
  intro input target
  simp [typingCorrect]

theorem splitChars_no_sep (p : Char → Bool) (l acc : List Char)
    (h : ∀ c ∈ l, p c = false) :
    splitChars p l acc = [acc.reverse ++ l] := by
  induction l generalizing acc with
  | nil => simp [splitChars]
  | cons c cs ih =>
    have hc : p c = false := h c (List.mem_cons_self c cs)
    have ih' := ih (c :: acc) (fun d hd => h d (List.mem_cons_of_mem c hd))
    simp [splitChars, hc, ih']

/-- C7 (amended).  Hint derivation is a pure function of the definition string:
the definition is split at each space character (not at general whitespace); a
single segment yields its first character followed by "...", several segments
yield their first characters joined by single spaces followed by "...";
"Photosynthesis" yields "P..." and "light dependent reaction" yields "l d r...". -/
theorem hint_derivation :
    (∀ (text : String), (∀ c ∈ text.toList, c ≠ ' ') → text ≠ "" →
      getHint text = String.mk (text.toList.take 1 ++ "...".toList))
    ∧ getHint "Photosynthesis" = "P..."
    ∧ getHint "light dependent reaction" = "l d r..." := by
  refine ⟨?_, by decide, by decide⟩
  intro text h hne
  have hsplit : splitChars (fun c => c = ' ') text.toList [] = [text.toList] := by
    simpa using splitChars_no_sep (fun c => decide (c = ' ')) text.toList []
      (fun c hc => decide_eq_false (h c hc))
  have hnil : text.toList ≠ [] := by
    intro hl
    exact hne (by cases text with | mk d => simp [String.toList] at hl; simp [hl])
  rw [getHint]
  simp only [hsplit, List.length_cons, List.length_nil, if_pos]
  cases hl : text.toList with
  | nil => exact absurd hl hnil
  | cons c cs => simp [jsCharAt0, hl]

/-- Closed instance of `hint_derivation` on a space-free two-letter definition. -/
theorem hint_derivation_witness :
    (∀ c ∈ "Hi".toList, c ≠ ' ')
    ∧ "Hi" ≠ ""
    ∧ getHint "Hi" = String.mk ("Hi".toList.take 1 ++ "...".toList) :=
  ⟨by decide, by decide, hint_derivation.1 "Hi" (by decide) (by decide)⟩

/-- C7 counterexample: the tab-separated definition "a\tb" has two
whitespace-delimited words, so the claim requires the hint "a b...", but the
code splits on the space character only, sees a single word, and yields "a...". -/
theorem hint_whitespace_cex :
    getHint "a\tb" = "a..."
    ∧ specHint "a\tb" = "a b..."
    ∧ getHint "a\tb" ≠ specHint "a\tb" := by
  refine ⟨?_, ?_, ?_⟩ <;> decide

theorem jsRound_eq (q : ℚ) (z : Int) (h1 : (z : ℚ) ≤ q + 1 / 2)
    (h2 : q + 1 / 2 < z + 1) : jsRound q = z := by
  rw [jsRound, Int.floor_eq_iff]
  exact ⟨h1, by exact_mod_cast h2⟩

/-- C8 (amended).  The aggregate is the rounded arithmetic mean of the cards'
effective confidences — a stored 0 (or absent) confidence entering as 50, see the
counterexample — recomputed from the working set on demand, and it lies in
[0,100] for every non-empty working set whose effective confidences do; on the
five-card example with confidences [10, 20, 30, 80, 90] it is 46. -/
theorem aggregate_confidence :
    (∀ (fl : List Flashcard),
      avgConfidence fl = jsRound ((sumConfidence fl : ℚ) / (fl.length : ℚ)))
    ∧ (∀ (fl : List Flashcard), fl ≠ [] →
      (∀ c ∈ fl, 0 ≤ effConf c ∧ effConf c ≤ 100) →
      0 ≤ avgConfidence fl ∧ avgConfidence fl ≤ 100)
    ∧ avgConfidence ex5 = 46 := by
  have hex : avgConfidence ex5 = 46 := by
    have hs : sumConfidence ex5 = 230 := by decide
    have hL : ex5.length = 5 := by decide
    simp only [avgConfidence, hs, hL]
    exact jsRound_eq _ 46 (by norm_num) (by norm_num)
  refine ⟨fun _ => rfl, ?_, hex⟩
  intro fl hne hb
  have h0 : 0 ≤ sumConfidence fl :=
    List.sum_nonneg (fun x hx => by
      obtain ⟨c, hc, rfl⟩ := List.mem_map.mp hx
      exact (hb c hc).1)
  have h100 : sumConfidence fl ≤ 100 * fl.length := by
    have := List.sum_le_card_nsmul (fl.map effConf) 100 (fun x hx => by
      obtain ⟨c, hc, rfl⟩ := List.mem_map.mp hx
      exact (hb c hc).2)
    simpa [sumConfidence, nsmul_eq_mul, mul_comm] using this
  have hn : 0 < fl.length := List.length_pos.mpr hne
  have hq0 : 0 ≤ (sumConfidence fl : ℚ) / (fl.length : ℚ) :=
    div_nonneg (by exact_mod_cast h0) (by positivity)
  have hq100 : (sumConfidence fl : ℚ) / (fl.length : ℚ) ≤ 100 := by
    rw [div_le_iff₀ (by exact_mod_cast hn)]
    exact_mod_cast h100
  constructor
  · refine Int.le_floor.mpr ?_
    push_cast
    linarith
  · have hlt : avgConfidence fl < 101 := by
      refine Int.floor_lt.mpr ?_
      push_cast
      linarith
    omega

/-- Closed instance of `aggregate_confidence` bounding the five-card example. -/
theorem aggregate_confidence_witness :
    ex5 ≠ []
    ∧ (∀ c ∈ ex5, 0 ≤ effConf c ∧ effConf c ≤ 100)
    ∧ (0 ≤ avgConfidence ex5 ∧ avgConfidence ex5 ≤ 100) :=
  ⟨by decide, by decide, aggregate_confidence.2.1 ex5 (by decide) (by decide)⟩

/-- C8 counterexample: a working set holding one card whose stored confidence is
0 has arithmetic mean 0, but the code's aggregate counts the card as 50, so the
displayed aggregate is 50. -/
theorem aggregate_zero_cex :
    avgConfidence exC8 = 50
    ∧ claimAggregate exC8 = 0
    ∧ avgConfidence exC8 ≠ claimAggregate exC8 := by
  have h1 : avgConfidence exC8 = 50 := by
    have hs : sumConfidence exC8 = 50 := by decide
    have hL : exC8.length = 1 := by decide
    simp only [avgConfidence, hs, hL]
    exact jsRound_eq _ 50 (by norm_num) (by norm_num)
  have h2 : claimAggregate exC8 = 0 := by
    have hs : claimSum exC8 = 0 := by decide
    have hL : exC8.length = 1 := by decide
    simp only [claimAggregate, hs, hL]
    exact jsRound_eq _ 0 (by norm_num) (by norm_num)
  refine ⟨h1, h2, by rw [h1, h2]; decide⟩

/-- C9.  The shuffle cannot be uniform: whatever finite number of `Math.random()`
draws (each uniform over a power-of-two grid of double values) the engine's sort
consumes, some reordering of the three-card working set is not produced on
exactly a 1/3! fraction of the draw outcomes, since 3! does not divide a power
of 2; so no driver realizes the claimed uniform reordering. -/
theorem shuffle_not_uniform :
    ∀ (k m : Nat) (driver : (Fin k → Fin (2 ^ m)) → Equiv.Perm (Fin ex3.length)),
      (∃ p : Equiv.Perm (Fin ex3.length),
        (shuffleFiber ex3 k m driver (handleShuffle ex3 p)).card * (ex3.length).factorial
          ≠ (2 ^ m) ^ k)
      ∧ ¬ IsUniformShuffle ex3 k m driver := by
  intro k m driver
  have key : (shuffleFiber ex3 k m driver (handleShuffle ex3 1)).card * (ex3.length).factorial
      ≠ (2 ^ m) ^ k := by
    intro h1
    have hf : (ex3.length).factorial = 6 := by decide
    rw [hf] at h1
    have h3 : (3 : Nat) ∣ 2 ^ (m * k) := by
      rw [pow_mul]
      exact ⟨(shuffleFiber ex3 k m driver (handleShuffle ex3 1)).card * 2, by omega⟩
    have h32 := Nat.Prime.dvd_of_dvd_pow Nat.prime_three h3
    omega
  exact ⟨⟨1, key⟩, fun hU => key (hU 1)⟩
